import Mathlib

/-!
Verification of the CHIP-8 emulator core (src/lib/index.js of nakardo/chip8-node).

The JavaScript source is shallowly embedded:
  - `memory` is a `Uint8Array(0x1000)`: writes mask the stored value mod 256 and
    out-of-range writes are dropped.  An out-of-range read yields `undefined`;
    wherever the source coerces the read value arithmetically (the `<<` and `|`
    of the fetch, the `&` of the sprite-row test) `undefined` becomes 0, which
    `memRead` models.  The one uncoerced read is the bare assignment
    `v[i] = memory[this.i + i]` of opcode 0xFx65, which stores `undefined`
    itself into the plain register array; `memReadBare` models its out-of-range
    result as the sentinel 256, a value outside [0,255] just as `undefined` is
    (no theorem below traces further operations on a register holding it).
  - `stack` is a plain JS array indexed by the untyped `sp` counter, which can
    leave [0,16); it is modelled as a total function `Int → Nat` (slots that were
    never written are read as 0; no theorem below depends on such a read).
  - `display` is a plain JS array indexed by `x + y*64`; out-of-range indices are
    modelled by a total function `Int → Nat`.
  - `Math.floor(Math.random() * 0xFF)` is an oracle parameter `rnd` of `runCycle`.
  - `renderer.clear()` is modelled by setting the `clearSignalled` flag;
    `renderer.render` and `console.log` have no effect on emulator state.
  - the `throw new Error('Unknown opcode ...')` in the default branch of the
    dispatch switch is the `.error` result of `Except`.
-/

/-- Pointwise function update, used for the `v` register file, the call stack
and the display buffer (plain JS array element assignment). -/
def upd {α β : Type} [DecidableEq α] (f : α → β) (k : α) (val : β) : α → β :=
  fun j => if j = k then val else f j

/-- Memory of the emulator: `new Uint8Array(0x1000)`.  The subtype invariant is
the typed-array guarantee that every stored cell is a byte. -/
def Mem : Type := { f : Nat → Nat // ∀ a, f a < 256 }

/-- Reading `memory[a]` in a coercing context (`<<`, `|`, `&`): out-of-range
reads are 0 (see the header comment). -/
def memRead (m : Mem) (a : Nat) : Nat :=
  if a < 4096 then m.val a else 0

/-- Reading `memory[a]` in the one place the source stores the read value by
bare assignment — the 0xFx65 loop `v[i] = memory[this.i + i]`.  No coercion
applies there, so an out-of-range read stores `undefined`, which is not a value
in [0,255]; the embedding represents it by the sentinel 256 (see the header
comment). -/
def memReadBare (m : Mem) (a : Nat) : Nat :=
  if a < 4096 then m.val a else 256

/-- Writing `memory[a] = val`: a `Uint8Array` stores `val mod 256` and drops
out-of-range writes. -/
def memWrite (m : Mem) (a val : Nat) : Mem :=
  if a < 4096 then
    ⟨upd m.val a (val % 256), by
      intro b
      by_cases hb : b = a
      · simpa [upd, hb] using Nat.mod_lt val (by norm_num)
      · simpa [upd, hb] using m.property b⟩
  else m

/-- Copies a list of bytes into memory at consecutive addresses starting at `a`
(the copy loops of `load` and of the font setup in `reset`). -/
def writeList (m : Mem) (a : Nat) : List Nat → Mem
  | [] => m
  | b :: rest => writeList (memWrite m a b) (a + 1) rest

/-- Memory as produced by `new Uint8Array(0x1000)`: all cells zero. -/
def zeroMem : Mem := ⟨fun _ => 0, by intro a; norm_num⟩

/-- Emulator state: the fields of the `Chip8` object.  `clearSignalled` models
the outward `renderer.clear()` call of the CLS instruction. -/
structure Chip8 where
  memory : Mem
  stack : Int → Nat
  v : Nat → Nat
  i : Nat
  dt : Nat
  st : Nat
  pc : Nat
  sp : Int
  running : Bool
  display : Int → Nat
  requestRender : Bool
  clearSignalled : Bool

/-- Font sprite table written into low memory by `reset`. -/
def fontBytes : List Nat :=
  [0xF0, 0x90, 0x90, 0x90, 0xF0,
   0x20, 0x60, 0x20, 0x20, 0x70,
   0xF0, 0x10, 0xF0, 0x80, 0xF0,
   0xF0, 0x10, 0xF0, 0x10, 0xF0,
   0x90, 0x90, 0xF0, 0x10, 0xF0,
   0xF0, 0x80, 0xF0, 0x10, 0xF0,
   0xF0, 0x80, 0xF0, 0x90, 0xF0,
   0xF0, 0x10, 0x20, 0x40, 0x40,
   0xF0, 0x90, 0xF0, 0x90, 0xF0,
   0xF0, 0x90, 0xF0, 0x10, 0xF0,
   0xF0, 0x90, 0xF0, 0x90, 0x90,
   0xE0, 0x90, 0xE0, 0x90, 0xE0,
   0xF0, 0x80, 0x80, 0x80, 0xF0,
   0xE0, 0x90, 0x90, 0x90, 0xE0,
   0xF0, 0x80, 0xF0, 0x80, 0xF0,
   0xF0, 0x80, 0xF0, 0x80, 0x80]

/-- `Chip8.prototype.reset`: zeroes memory, loads the font, zeroes registers and
display, sets `pc = 0x200`, `sp = 0`, `running = false`.  The call stack and the
render flags are not touched by the source reset. -/
def Chip8.reset (s : Chip8) : Chip8 :=
  { s with
    memory := writeList zeroMem 0 fontBytes
    v := fun _ => 0
    i := 0
    dt := 0
    st := 0
    pc := 0x200
    sp := 0
    display := fun _ => 0
    running := false }

/-- The `Chip8` constructor: fresh zeroed components followed by `reset()`. -/
def initChip8 : Chip8 :=
  Chip8.reset
    { memory := zeroMem
      stack := fun _ => 0
      v := fun _ => 0
      i := 0
      dt := 0
      st := 0
      pc := 0
      sp := 0
      running := false
      display := fun _ => 0
      requestRender := false
      clearSignalled := false }

/-- `Chip8.prototype.load`: the loader hands `(err, p)` to the callback, which
copies `p` into memory at 0x200 and then invokes `cb(err)`.  The returned `Bool`
is the error value passed on to the caller; note the source copies the bytes
before (and regardless of) the error. -/
def Chip8.load (s : Chip8) (err : Bool) (p : List Nat) : Chip8 × Bool :=
  ({ s with memory := writeList s.memory 0x200 p }, err)

/-- Display width of the source (`this.displayWidth = 64`). -/
def displayWidth : Int := 64

/-- Display height of the source (`this.displayHeight = 32`). -/
def displayHeight : Int := 32

/-- Size of the display array allocated by the constructor. -/
def displaySize : Int := displayWidth * displayHeight

/-- Horizontal wrap step of `setPixel`: `if (x > w) x -= w; else if (x < 0) x += w`. -/
def wrapX (x : Int) : Int :=
  if x > displayWidth then x - displayWidth
  else if x < 0 then x + displayWidth
  else x

/-- Vertical wrap step of `setPixel`: `if (y > h) y -= h; else if (y < 0) y += h`. -/
def wrapY (y : Int) : Int :=
  if y > displayHeight then y - displayHeight
  else if y < 0 then y + displayHeight
  else y

/-- Flat buffer index computed by `setPixel`: `location = x + (y * w)` after the
wrap steps. -/
def pixelLoc (x y : Int) : Int :=
  wrapX x + wrapY y * displayWidth

/-- `Chip8.prototype.setPixel`: XOR-toggles the pixel and returns the negation
of the new value (true exactly when a lit pixel was erased). -/
def setPixel (d : Int → Nat) (x y : Int) : (Int → Nat) × Bool :=
  let location := pixelLoc x y
  let px := d location ^^^ 1
  (upd d location px, px == 0)

/-- Inner loop of the DRW instruction over the 8 sprite columns.  `k` counts the
remaining iterations, `x` is the current pixel abscissa `vx + cx`, and `spr` is
shifted left once per iteration exactly as in the source; the accumulator holds
the display and the running value of `V[0xF]`. -/
def drawCols : Nat → Nat → Int → Int → ((Int → Nat) × Nat) → ((Int → Nat) × Nat)
  | 0, _, _, _, acc => acc
  | k + 1, spr, x, y, acc =>
    let acc2 :=
      if spr &&& 0x80 > 0 then
        let r := setPixel acc.1 x y
        (r.1, if r.2 then 1 else acc.2)
      else acc
    drawCols k (spr <<< 1) (x + 1) y acc2

/-- Outer loop of the DRW instruction over the `k` sprite rows, reading one
sprite byte per row from `memory[a]` with `a = I + cy`; `y` is `vy + cy`. -/
def drawRows (m : Mem) : Nat → Nat → Int → Int → ((Int → Nat) × Nat) → ((Int → Nat) × Nat)
  | 0, _, _, _, acc => acc
  | k + 1, a, x, y, acc =>
    drawRows m k (a + 1) x (y + 1) (drawCols 8 (memRead m a) x y acc)

/-- Body of opcode 0xFx33 (`LD B, Vx`).  The source loop runs `i = 3, 2, 1` and
performs `memory[I + i - 1] = parseInt(v % 10); v /= 10`.  The JS float division
followed by `parseInt` truncation coincides with natural division for the
register values the instruction reads, so the loop is unrolled over `Nat`. -/
def bcdStore (m : Mem) (base vv : Nat) : Mem :=
  let m1 := memWrite m (base + 2) (vv % 10)
  let m2 := memWrite m1 (base + 1) (vv / 10 % 10)
  memWrite m2 base (vv / 10 / 10 % 10)

/-- Body of opcode 0xFx55: `for (i = 0; i <= x; i++) memory[I + i] = v[i]`;
`k` is the number of registers copied (`x + 1`). -/
def storeRegs (v : Nat → Nat) (base : Nat) (m : Mem) : Nat → Mem
  | 0 => m
  | k + 1 => memWrite (storeRegs v base m k) (base + k) (v k)

/-- Body of opcode 0xFx65: `for (i = 0; i <= x; i++) v[i] = memory[I + i]`.
The read is a bare assignment into the plain array `v`, so it uses
`memReadBare`: an out-of-range read stores the `undefined` sentinel. -/
def loadRegs (m : Mem) (base : Nat) (v : Nat → Nat) : Nat → (Nat → Nat)
  | 0 => v
  | k + 1 => upd (loadRegs m base v k) k (memReadBare m (base + k))

/-- Opcode fetch: `memory[pc] << 8 | memory[pc + 1]`. -/
def fetchAt (m : Mem) (p : Nat) : Nat :=
  memRead m p <<< 8 ||| memRead m (p + 1)

/-- The 0x8xy* arithmetic family: the nested switch on `opcode & 0xF` of
`runCycle`.  A low nibble with no `case` (such as 0xF) falls through with the
state unchanged, as in the source. -/
def execALU (s : Chip8) (opcode : Nat) : Chip8 :=
  let x := (opcode &&& 0xF00) >>> 8
  let y := (opcode &&& 0xF0) >>> 4
  let lo := opcode &&& 0xF
  if lo = 0 then { s with v := upd s.v x (s.v y) }
  else if lo = 1 then { s with v := upd s.v x (s.v x ||| s.v y) }
  else if lo = 2 then { s with v := upd s.v x (s.v x &&& s.v y) }
  else if lo = 3 then { s with v := upd s.v x (s.v x ^^^ s.v y) }
  else if lo = 4 then
    let v1 := upd s.v x (s.v x + s.v y)
    let v2 := upd v1 0xF (if v1 x > 0xFF then 1 else 0)
    { s with v := if v2 x > 0xFF then upd v2 x (v2 x - 0x100) else v2 }
  else if lo = 5 then
    let v1 := upd s.v 0xF (if s.v x > s.v y then 1 else 0)
    let diff : Int := (v1 x : Int) - (v1 y : Int)
    { s with v := upd v1 x (if diff < 0 then diff + 0x100 else diff).toNat }
  else if lo = 6 then
    let v1 := upd s.v 0xF (s.v x &&& 1)
    { s with v := upd v1 x (v1 x >>> 1) }
  else if lo = 7 then
    let v1 := upd s.v 0xF (if s.v y > s.v x then 1 else 0)
    let diff : Int := (v1 y : Int) - (v1 x : Int)
    { s with v := upd v1 x (if diff < 0 then diff + 0x100 else diff).toNat }
  else if lo = 0xE then
    let v1 := upd s.v 0xF (s.v x &&& 0x80)
    let v2 := upd v1 x (v1 x <<< 1)
    { s with v := if v2 x > 0xFF then upd v2 x (v2 x - 0x100) else v2 }
  else s

/-- The 0xDxyn sprite-draw case of `runCycle`: `V[0xF] = 0` first, then the
start coordinates are read and the row loop runs; `requestRender` is set inside
the row loop, hence only when `n > 0`. -/
def execDraw (s : Chip8) (opcode : Nat) : Chip8 :=
  let x := (opcode &&& 0xF00) >>> 8
  let y := (opcode &&& 0xF0) >>> 4
  let n := opcode &&& 0xF
  let v1 := upd s.v 0xF 0
  let vx : Int := (v1 x : Int)
  let vy : Int := (v1 y : Int)
  let res := drawRows s.memory n s.i vx vy (s.display, 0)
  { s with v := upd v1 0xF res.2, display := res.1,
           requestRender := if n = 0 then s.requestRender else true }

/-- The 0xFx** family: the nested switch on `opcode & 0xFF` of `runCycle`.
The 0x0A case is the unimplemented wait-for-key stub; a low byte with no `case`
falls through with the state unchanged. -/
def execMisc (s : Chip8) (opcode : Nat) : Chip8 :=
  let x := (opcode &&& 0xF00) >>> 8
  let lo := opcode &&& 0xFF
  if lo = 0x07 then { s with v := upd s.v x s.dt }
  else if lo = 0x0A then s
  else if lo = 0x15 then { s with dt := s.v x }
  else if lo = 0x18 then { s with st := s.v x }
  else if lo = 0x1E then { s with i := s.i + s.v x }
  else if lo = 0x29 then { s with i := s.v x * 5 }
  else if lo = 0x33 then { s with memory := bcdStore s.memory s.i (s.v x) }
  else if lo = 0x55 then { s with memory := storeRegs s.v s.i s.memory (x + 1) }
  else if lo = 0x65 then { s with v := loadRegs s.memory s.i s.v (x + 1) }
  else s

/-- Decode and execute one already-fetched opcode: the body of
`Chip8.prototype.runCycle` after the fetch.  The switch on `opcode & 0xF000`
(and the nested switches on the low nibble or byte, split off into `execALU`,
`execDraw` and `execMisc`) is rendered as the equivalent chain of equality
tests; a missing `case` of a nested switch falls through to the unchanged
state, exactly as in the source, and the final branch is the
`default: throw` of the outer switch. -/
def exec (s0 : Chip8) (opcode rnd : Nat) : Except Nat Chip8 :=
  let addr := opcode &&& 0xFFF
  let x := (opcode &&& 0xF00) >>> 8
  let y := (opcode &&& 0xF0) >>> 4
  let byte := opcode &&& 0xFF
  let s := { s0 with pc := s0.pc + 2 }
  let top := opcode &&& 0xF000
  if top = 0x0000 then
    if opcode = 0xE0 then
      .ok { s with clearSignalled := true }
    else if opcode = 0xEE then
      .ok { s with sp := s.sp - 1, pc := s.stack (s.sp - 1) }
    else .ok s
  else if top = 0x1000 then
    .ok { s with pc := addr }
  else if top = 0x2000 then
    .ok { s with stack := upd s.stack s.sp s.pc, sp := s.sp + 1, pc := addr }
  else if top = 0x3000 then
    .ok (if s.v x = byte then { s with pc := s.pc + 2 } else s)
  else if top = 0x4000 then
    .ok (if s.v x ≠ byte then { s with pc := s.pc + 2 } else s)
  else if top = 0x5000 then
    .ok (if s.v x = s.v y then { s with pc := s.pc + 2 } else s)
  else if top = 0x6000 then
    .ok { s with v := upd s.v x byte }
  else if top = 0x7000 then
    let v1 := upd s.v x (s.v x + byte)
    .ok { s with v := if v1 x > 0xFF then upd v1 x (v1 x - 0x100) else v1 }
  else if top = 0x8000 then
    .ok (execALU s opcode)
  else if top = 0x9000 then
    .ok (if s.v x ≠ s.v y then { s with pc := s.pc + 2 } else s)
  else if top = 0xA000 then
    .ok { s with i := addr }
  else if top = 0xB000 then
    .ok { s with pc := addr + s.v 0 }
  else if top = 0xC000 then
    .ok { s with v := upd s.v x (rnd &&& byte) }
  else if top = 0xD000 then
    .ok (execDraw s opcode)
  else if top = 0xE000 then
    .ok s
  else if top = 0xF000 then
    .ok (execMisc s opcode)
  else .error opcode

/-- `Chip8.prototype.runCycle`: fetch at `pc` and execute. -/
def runCycle (s : Chip8) (rnd : Nat) : Except Nat Chip8 :=
  exec s (fetchAt s.memory s.pc) rnd

/-- Iterated cycles with the random oracle fixed to 0 (used for concrete runs
of programs that do not execute RND). -/
def runN : Nat → Chip8 → Except Nat Chip8
  | 0, s => .ok s
  | k + 1, s =>
    match runCycle s 0 with
    | .ok s2 => runN k s2
    | .error e => .error e

/-- States reachable from a freshly constructed emulator after loading an
arbitrary program, by executing cycles (with arbitrary random oracle values). -/
inductive Reachable : Chip8 → Prop
  | loaded (p : List Nat) : Reachable (Chip8.load initChip8 false p).1
  | step (s t : Chip8) (rnd : Nat) : Reachable s → runCycle s rnd = .ok t → Reachable t

/-- Sprite-coverage predicate for a DRW execution of `k` rows whose bytes start
at `memory[a]`, drawn from start position `(x, y)`: some set sprite bit lands
on a flat display location satisfying `P`.  The bit test is the one the source
performs at column `j` after `j` left shifts. -/
@[reducible]
def rowsHitP (m : Mem) (k a : Nat) (x y : Int) (P : Int → Prop) : Prop :=
  ∃ cy : Nat, cy < k ∧ ∃ j : Nat, j < 8 ∧
    (memRead m (a + cy) <<< j) &&& 0x80 > 0 ∧ P (x + j + (y + cy) * 64)

/-- Concrete state for claim C1: the undefined opcode 0x0123 loaded at 0x200. -/
def c1State : Chip8 := (Chip8.load initChip8 false [0x01, 0x23]).1

/-- Concrete state for claim C2: opcode 0x800E (SHL V0) with `V[0] = 0x80`. -/
def c2State : Chip8 :=
  { (Chip8.load initChip8 false [0x80, 0x0E]).1 with v := upd (fun _ => 0) 0 0x80 }

/-- Concrete state for claim C3: the one-instruction loop `CALL 0x200`. -/
def c3State : Chip8 := (Chip8.load initChip8 false [0x22, 0x00]).1

/-- Concrete state for claim C4: `CALL 0x206` at 0x200 and `RET` at 0x206. -/
def c4State : Chip8 :=
  (Chip8.load initChip8 false [0x22, 0x06, 0x00, 0x00, 0x00, 0x00, 0x00, 0xEE]).1

/-- Concrete state for claim C5: opcode 0xD011 (DRW V0, V1, 1) at 0x200 and at
0x202, sprite byte 0x80 at `I = 0x300`, and the single touched pixel (0,0)
already lit. -/
def c5State : Chip8 :=
  { (Chip8.load initChip8 false [0xD0, 0x11, 0xD0, 0x11]).1 with
    i := 0x300
    memory := memWrite (Chip8.load initChip8 false [0xD0, 0x11, 0xD0, 0x11]).1.memory
      0x300 0x80
    display := upd (fun _ => 0) 0 1 }

/-- Variant of `c5State` with a fully dark display (the touched pixel clear). -/
def c5StateW : Chip8 := { c5State with display := fun _ => 0 }

/-- Concrete state for claim C6: opcode 0xF033 with `V[0] = 234`, `I = 0x300`. -/
def c6State : Chip8 :=
  { (Chip8.load initChip8 false [0xF0, 0x33]).1 with
    v := upd (fun _ => 0) 0 234
    i := 0x300 }

/-- Concrete state for claim C7: opcode 0xF007 (LD V0, DT) with `DT = 300`. -/
def c7State : Chip8 := { (Chip8.load initChip8 false [0xF0, 0x07]).1 with dt := 300 }

/-- Concrete state for claim C8: opcode 0x00E0 (CLS) with pixel 0 lit. -/
def c8State : Chip8 :=
  { (Chip8.load initChip8 false [0x00, 0xE0]).1 with display := upd (fun _ => 0) 0 1 }

/-! ## General lemmas about the embedding -/

@[simp] theorem upd_same {α β : Type} [DecidableEq α] (f : α → β) (k : α) (val : β) :
    upd f k val k = val := by
  simp [upd]

theorem upd_diff {α β : Type} [DecidableEq α] (f : α → β) (k : α) (val : β)
    (j : α) (h : j ≠ k) : upd f k val j = f j := by
  simp [upd, h]

theorem memRead_lt_256 (m : Mem) (a : Nat) : memRead m a < 256 := by
  unfold memRead
  split
  · exact m.property a
  · norm_num

theorem memRead_memWrite_same (m : Mem) (a val : Nat) (h : a < 4096) :
    memRead (memWrite m a val) a = val % 256 := by
  simp [memRead, memWrite, h, upd]

theorem memRead_memWrite_diff (m : Mem) (a b val : Nat) (h : b ≠ a) :
    memRead (memWrite m a val) b = memRead m b := by
  unfold memRead memWrite
  by_cases ha : a < 4096
  · simp [ha, upd, h]
  · simp [ha]

/-- Bit-field extraction: masking with a nibble mask `0xF << s` selects the
corresponding base-16 digit. -/
theorem and_nibble_shift (op s : Nat) : op &&& (15 <<< s) = op / 2 ^ s % 16 * 2 ^ s := by
  have hrw : op / 2 ^ s % 16 * 2 ^ s = ((op >>> s) % 2 ^ 4) <<< s := by
    rw [Nat.shiftLeft_eq, Nat.shiftRight_eq_div_pow]
    norm_num
  have h15 : (15 : Nat) = 2 ^ 4 - 1 := by norm_num
  rw [hrw]
  apply Nat.eq_of_testBit_eq
  intro j
  rw [Nat.testBit_and, Nat.testBit_shiftLeft, Nat.testBit_shiftLeft,
    Nat.testBit_mod_two_pow, Nat.testBit_shiftRight, h15,
    Nat.testBit_two_pow_sub_one]
  by_cases hs : s ≤ j
  · have hj : s + (j - s) = j := by omega
    rw [hj]
    cases op.testBit j <;> simp [ge_iff_le, hs, Bool.and_comm]
  · have hge : decide (j ≥ s) = false := by simp [ge_iff_le]; omega
    simp [hge]

theorem and_F000 (op : Nat) : op &&& 0xF000 = op / 4096 % 16 * 4096 := by
  have h : (0xF000 : Nat) = 15 <<< 12 := by decide
  rw [h, and_nibble_shift]
  norm_num

theorem and_F00_shr (op : Nat) : (op &&& 0xF00) >>> 8 = op / 256 % 16 := by
  have h : (0xF00 : Nat) = 15 <<< 8 := by decide
  rw [h, and_nibble_shift, Nat.shiftRight_eq_div_pow]
  norm_num

theorem and_F0_shr (op : Nat) : (op &&& 0xF0) >>> 4 = op / 16 % 16 := by
  have h : (0xF0 : Nat) = 15 <<< 4 := by decide
  rw [h, and_nibble_shift, Nat.shiftRight_eq_div_pow]
  norm_num

theorem and_FFF (op : Nat) : op &&& 0xFFF = op % 4096 := by
  have h : (0xFFF : Nat) = 2 ^ 12 - 1 := by norm_num
  rw [h, Nat.and_pow_two_sub_one_eq_mod]

theorem and_FF (op : Nat) : op &&& 0xFF = op % 256 := by
  have h : (0xFF : Nat) = 2 ^ 8 - 1 := by norm_num
  rw [h, Nat.and_pow_two_sub_one_eq_mod]

theorem and_F (op : Nat) : op &&& 0xF = op % 16 := by
  have h : (0xF : Nat) = 2 ^ 4 - 1 := by norm_num
  rw [h, Nat.and_pow_two_sub_one_eq_mod]

/-- Executing cycles preserves reachability. -/
theorem reachable_runN (n : Nat) (s t : Chip8) (hs : Reachable s)
    (h : runN n s = .ok t) : Reachable t := by
  induction n generalizing s with
  | zero =>
    unfold runN at h
    cases h
    exact hs
  | succ k ih =>
    unfold runN at h
    cases hr : runCycle s 0 with
    | ok s2 =>
      rw [hr] at h
      exact ih s2 (Reachable.step s s2 0 hs hr) h
    | error e =>
      rw [hr] at h
      cases h

/-! ## Claim C1 -/

/-- C1: the claim says every opcode value missing from the instruction table
makes the cycle stop with an unknown-opcode error.  The code instead ignores
such opcodes silently: executing 0x0123 returns a normal result whose state is
unchanged apart from `pc := pc + 2` (the `default: throw` of the outer switch is
unreachable because every top nibble has a `case` and the nested switches for
the 0x0, 0x8, 0xE and 0xF families have no `default`). -/
theorem unknown_opcode_silent_eval :
    runCycle c1State 0 = .ok { c1State with pc := c1State.pc + 2 } := by
  rfl

/-! ## Claim C2 -/

/-- C2: evaluating opcode 0x800E (SHL V0) with `V[0] = 0x80` sets `V[0xF]` to
0x80, not to 1 as the claim (and the instruction comment in the source) states;
`V[0]` itself becomes `(0x80 << 1) mod 256 = 0`. -/
theorem shl_flag_eval :
    (runCycle c2State 0).toOption.map (fun t => (t.v 0xF, t.v 0)) = some (0x80, 0)
      ∧ (0x80 : Nat) ≠ 1 := by
  exact ⟨by decide, by decide⟩

/-! ## Claim C8 -/

/-- C8 (amended): executing 0x00E0 (CLS) signals the external renderer to clear
and leaves the emulator's own display buffer unchanged; the source never zeroes
its `display` array. -/
theorem cls_theorem (s : Chip8) (rnd : Nat) (hop : fetchAt s.memory s.pc = 0xE0) :
    ∃ t, runCycle s rnd = .ok t ∧ t.clearSignalled = true ∧ t.display = s.display := by
  refine ⟨{ s with pc := s.pc + 2, clearSignalled := true }, ?_, rfl, rfl⟩
  unfold runCycle
  rw [hop]
  rfl

/-- C8 witness: the amended claim at the concrete CLS state. -/
theorem cls_witness :
    ∃ t, runCycle c8State 0 = .ok t ∧ t.clearSignalled = true ∧
      t.display = c8State.display :=
  cls_theorem c8State 0 (by decide)

/-- C8 counterexample: after CLS the lit pixel 0 of `c8State` still reads 1, so
not every pixel of the core's own buffer equals 0. -/
theorem cls_counterexample :
    (runCycle c8State 0).toOption.map (fun t => t.display 0) = some 1 ∧ (1 : Nat) ≠ 0 := by
  exact ⟨by decide, by decide⟩

/-! ## Claim C9 -/

/-- C9 (amended): `load` always propagates the error value it is handed to its
callback, but it copies the loader-supplied bytes into memory at 0x200 before
(and regardless of) the error; memory is unchanged when the loader supplies no
bytes. -/
theorem load_error_theorem (s : Chip8) (err : Bool) (p : List Nat) :
    (Chip8.load s err p).2 = err ∧
      (p = [] → ∀ a, memRead (Chip8.load s err p).1.memory a = memRead s.memory a) := by
  refine ⟨rfl, ?_⟩
  rintro rfl a
  rfl

/-- C9 witness: the amended claim at a concrete erroring load. -/
theorem load_error_witness :
    (Chip8.load initChip8 true []).2 = true ∧
      memRead (Chip8.load initChip8 true []).1.memory 0x200 =
        memRead initChip8.memory 0x200 :=
  ⟨(load_error_theorem initChip8 true []).1,
    (load_error_theorem initChip8 true []).2 rfl 0x200⟩

/-- C9 counterexample: an erroring load that supplies one byte still writes that
byte into memory at 0x200 (memory was 0 there before), refuting the claim that
a failed load leaves memory unchanged. -/
theorem load_error_counterexample :
    (Chip8.load initChip8 true [0xAB]).2 = true ∧
      memRead (Chip8.load initChip8 true [0xAB]).1.memory 0x200 = 0xAB ∧
      memRead initChip8.memory 0x200 = 0 := by
  exact ⟨rfl, by decide, by decide⟩

/-! ## Claim C10 -/

/-- C10: the wrap step of `setPixel` fires only for coordinates strictly greater
than the buffer dimension, so `x = 64` (resp. `y = 32`) is not wrapped: the
toggle lands at flat index `64 + y*64`, which for `(64, 31)` is 2048, at the end
of the 2048-element display buffer, and any `y = 32` write also lands at or past
index 2048. -/
theorem pixel_wrap_theorem :
    (∀ x : Int, 0 ≤ x → x ≤ displayWidth → wrapX x = x) ∧
    (∀ x : Int, displayWidth < x → wrapX x = x - displayWidth) ∧
    (∀ y : Int, 0 ≤ y → y ≤ displayHeight → wrapY y = y) ∧
    (∀ d : Int → Nat, ∀ x y : Int,
      (setPixel d x y).1 = upd d (pixelLoc x y) (d (pixelLoc x y) ^^^ 1)) ∧
    (∀ y : Int, 0 ≤ y → y ≤ displayHeight → pixelLoc 64 y = 64 + y * 64) ∧
    pixelLoc 64 31 = 2048 ∧
    displaySize ≤ pixelLoc 64 31 ∧
    (∀ x : Int, 0 ≤ x → x ≤ displayWidth → displaySize ≤ pixelLoc x 32) := by
  refine ⟨?_, ?_, ?_, ?_, ?_, by decide, by decide, ?_⟩
  · intro x h0 h1
    simp only [displayWidth] at h1
    simp only [wrapX, displayWidth]
    split_ifs <;> omega
  · intro x h1
    simp only [displayWidth] at h1
    simp only [wrapX, displayWidth]
    split_ifs <;> omega
  · intro y h0 h1
    simp only [displayHeight] at h1
    simp only [wrapY, displayHeight]
    split_ifs <;> omega
  · intro d x y
    rfl
  · intro y h0 h1
    simp only [displayHeight] at h1
    simp only [pixelLoc, wrapX, wrapY, displayWidth, displayHeight]
    split_ifs <;> omega
  · intro x h0 h1
    simp only [displayWidth] at h1
    simp only [displaySize, pixelLoc, wrapX, wrapY, displayWidth, displayHeight]
    split_ifs <;> omega

/-- C10 witness: the boundary coordinate instances. -/
theorem pixel_wrap_witness :
    wrapX 64 = 64 ∧ pixelLoc 64 31 = 2048 ∧ displaySize ≤ pixelLoc 64 31 :=
  ⟨pixel_wrap_theorem.1 64 (by decide) (by decide),
    pixel_wrap_theorem.2.2.2.2.2.1,
    pixel_wrap_theorem.2.2.2.2.2.2.1⟩

/-! ## CALL and RET step lemmas -/

/-- Effect of one cycle whose fetched opcode is a CALL (0x2nnn). -/
theorem exec_call (s : Chip8) (rnd op : Nat) (hop : fetchAt s.memory s.pc = op)
    (hcall : op &&& 0xF000 = 0x2000) :
    runCycle s rnd =
      .ok { s with
            pc := op &&& 0xFFF
            stack := upd s.stack s.sp (s.pc + 2)
            sp := s.sp + 1 } := by
  unfold runCycle
  rw [hop]
  simp only [exec, hcall]
  norm_num

/-- Effect of one cycle whose fetched opcode is RET (0x00EE). -/
theorem exec_ret (s : Chip8) (rnd : Nat) (hop : fetchAt s.memory s.pc = 0xEE) :
    runCycle s rnd = .ok { s with pc := s.stack (s.sp - 1), sp := s.sp - 1 } := by
  unfold runCycle
  rw [hop]
  rfl

/-! ## Claim C3 -/

/-- C3 counterexample: after loading the one-instruction loop `CALL 0x200` and
executing 16 cycles, the reachable state has `SP = 16`, outside [0,16); CALL
performs no bounds check, refuting the claimed invariant. -/
theorem sp_range_counterexample :
    ¬ (∀ s : Chip8, Reachable s → 0 ≤ s.sp ∧ s.sp < 16) := by
  intro hclaim
  have h16 : (runN 16 c3State).toOption.map Chip8.sp = some 16 := by decide
  cases hrun : runN 16 c3State with
  | error e =>
    rw [hrun] at h16
    simp [Except.toOption] at h16
  | ok t =>
    have hreach : Reachable t :=
      reachable_runN 16 c3State t (Reachable.loaded [0x22, 0x00]) hrun
    have hsp := (hclaim t hreach).2
    rw [hrun] at h16
    simp [Except.toOption] at h16
    omega

/-- C3 (amended): a CALL cycle adds exactly one to SP and a RET cycle subtracts
exactly one, with no bounds check in either; hence SP stays inside [0,16) only
under the preconditions `0 ≤ SP ≤ 14` before a CALL and `1 ≤ SP < 16` before a
RET (a CALL at SP = 15 yields SP = 16, a RET at SP = 0 yields SP = -1). -/
theorem sp_step_theorem (s : Chip8) (rnd op : Nat)
    (hop : fetchAt s.memory s.pc = op) :
    (op &&& 0xF000 = 0x2000 →
      ∃ t, runCycle s rnd = .ok t ∧ t.sp = s.sp + 1 ∧
        (0 ≤ s.sp → s.sp ≤ 14 → 0 ≤ t.sp ∧ t.sp < 16)) ∧
    (op = 0xEE →
      ∃ t, runCycle s rnd = .ok t ∧ t.sp = s.sp - 1 ∧
        (1 ≤ s.sp → s.sp < 16 → 0 ≤ t.sp ∧ t.sp < 16)) := by
  constructor
  · intro hcall
    refine ⟨_, exec_call s rnd op hop hcall, rfl, ?_⟩
    intro h1 h2
    show 0 ≤ s.sp + 1 ∧ s.sp + 1 < 16
    omega
  · intro hret
    subst hret
    refine ⟨_, exec_ret s rnd hop, rfl, ?_⟩
    intro h1 h2
    show 0 ≤ s.sp - 1 ∧ s.sp - 1 < 16
    omega

/-- C3 witness: the amended claim instantiated at `c3State` (CALL at SP = 0). -/
theorem sp_step_witness :
    ∃ t, runCycle c3State 0 = .ok t ∧ t.sp = c3State.sp + 1 ∧
      (0 ≤ c3State.sp → c3State.sp ≤ 14 → 0 ≤ t.sp ∧ t.sp < 16) :=
  (sp_step_theorem c3State 0 0x2200 (by decide)).1 (by decide)

/-! ## Claim C4 -/

/-- C4: from any state with SP < 16 whose instruction at PC is `CALL nnn` and
whose instruction at `nnn` is `RET`, executing the CALL cycle and then the RET
cycle restores PC to the CALL fetch address plus 2 and restores SP. -/
theorem call_ret_theorem (s : Chip8) (r1 r2 op : Nat)
    (hop : fetchAt s.memory s.pc = op)
    (hcall : op &&& 0xF000 = 0x2000)
    (_hsp : s.sp < 16)
    (hret : fetchAt s.memory (op &&& 0xFFF) = 0xEE) :
    ∃ t u, runCycle s r1 = .ok t ∧ runCycle t r2 = .ok u ∧
      u.pc = s.pc + 2 ∧ u.sp = s.sp := by
  have h1 := exec_call s r1 op hop hcall
  have h2 := exec_ret
    { s with
      pc := op &&& 0xFFF
      stack := upd s.stack s.sp (s.pc + 2)
      sp := s.sp + 1 } r2 hret
  refine ⟨_, _, h1, h2, ?_, ?_⟩
  · show (upd s.stack s.sp (s.pc + 2)) (s.sp + 1 - 1) = s.pc + 2
    have hs : s.sp + 1 - 1 = s.sp := by omega
    rw [hs, upd_same]
  · show s.sp + 1 - 1 = s.sp
    omega

/-- C4 witness: the round-trip on the concrete program `CALL 0x206; ...; RET`. -/
theorem call_ret_witness :
    ∃ t u, runCycle c4State 0 = .ok t ∧ runCycle t 0 = .ok u ∧
      u.pc = c4State.pc + 2 ∧ u.sp = c4State.sp :=
  call_ret_theorem c4State 0 0 0x2206 (by decide) (by decide) (by decide) (by decide)

/-! ## Claim C6 -/

/-- Reading back the three BCD digit cells written by `bcdStore`. -/
theorem bcd_reads (m : Mem) (base vv : Nat) (hb : base + 3 ≤ 4096) (hv : vv ≤ 255) :
    memRead (bcdStore m base vv) base = vv / 100 ∧
    memRead (bcdStore m base vv) (base + 1) = vv / 10 % 10 ∧
    memRead (bcdStore m base vv) (base + 2) = vv % 10 := by
  simp only [bcdStore]
  refine ⟨?_, ?_, ?_⟩
  · rw [memRead_memWrite_same _ _ _ (by omega)]
    omega
  · rw [memRead_memWrite_diff _ _ _ _ (by omega),
      memRead_memWrite_same _ _ _ (by omega)]
    omega
  · rw [memRead_memWrite_diff _ _ _ _ (by omega),
      memRead_memWrite_diff _ _ _ _ (by omega),
      memRead_memWrite_same _ _ _ (by omega)]
    omega

/-- C6: executing 0xFx33 with `V[x] ≤ 255` and `I + 3 ≤ 4096` writes the three
decimal digits of `V[x]` to `memory[I]`, `memory[I+1]`, `memory[I+2]`,
hundreds digit first. -/
theorem bcd_theorem (s : Chip8) (rnd xr : Nat) (hxr : xr < 16)
    (hop : fetchAt s.memory s.pc = 0xF033 + xr * 256)
    (hv : s.v xr ≤ 255) (hI : s.i + 3 ≤ 4096) :
    ∃ t, runCycle s rnd = .ok t ∧
      memRead t.memory s.i = s.v xr / 100 ∧
      memRead t.memory (s.i + 1) = s.v xr / 10 % 10 ∧
      memRead t.memory (s.i + 2) = s.v xr % 10 := by
  have htop : (0xF033 + xr * 256) &&& 0xF000 = 0xF000 := by
    rw [and_F000]; omega
  have hlo : (0xF033 + xr * 256) &&& 0xFF = 0x33 := by
    rw [and_FF]; omega
  have hxf : ((0xF033 + xr * 256) &&& 0xF00) >>> 8 = xr := by
    rw [and_F00_shr]; omega
  have h1 : runCycle s rnd =
      .ok { s with
            pc := s.pc + 2
            memory := bcdStore s.memory s.i (s.v xr) } := by
    unfold runCycle
    rw [hop]
    simp only [exec, execMisc, htop, hlo, hxf]
    norm_num
  refine ⟨_, h1, ?_, ?_, ?_⟩
  · exact (bcd_reads s.memory s.i (s.v xr) hI hv).1
  · exact (bcd_reads s.memory s.i (s.v xr) hI hv).2.1
  · exact (bcd_reads s.memory s.i (s.v xr) hI hv).2.2

/-- C6 witness: `V[0] = 234`, `I = 0x300` gives digits 2, 3, 4. -/
theorem bcd_witness :
    ∃ t, runCycle c6State 0 = .ok t ∧
      memRead t.memory c6State.i = c6State.v 0 / 100 ∧
      memRead t.memory (c6State.i + 1) = c6State.v 0 / 10 % 10 ∧
      memRead t.memory (c6State.i + 2) = c6State.v 0 % 10 :=
  bcd_theorem c6State 0 0 (by decide) (by decide) (by decide) (by decide)

/-! ## Claim C7 -/

theorem upd_le (v : Nat → Nat) (k val : Nat) (hv : ∀ j, j < 16 → v j ≤ 255)
    (hval : val ≤ 255) : ∀ j, j < 16 → upd v k val j ≤ 255 := by
  intro j hj
  by_cases h : j = k
  · subst h
    rw [upd_same]
    exact hval
  · rw [upd_diff _ _ _ _ h]
    exact hv j hj

/-- The collision accumulator of the sprite column loop stays in {0, 1}. -/
theorem drawCols_flag_le (k : Nat) :
    ∀ (spr : Nat) (x y : Int) (acc : (Int → Nat) × Nat),
      acc.2 ≤ 1 → (drawCols k spr x y acc).2 ≤ 1 := by
  induction k with
  | zero =>
    intro spr x y acc h
    simpa [drawCols] using h
  | succ k ih =>
    intro spr x y acc h
    simp only [drawCols]
    apply ih
    by_cases hbit : spr &&& 0x80 > 0
    · simp only [hbit, if_true]
      by_cases hr : (setPixel acc.1 x y).2 = true
      · simp [hr]
      · simp [hr, h]
    · simp [hbit, h]

/-- The collision accumulator of the sprite row loop stays in {0, 1}. -/
theorem drawRows_flag_le (m : Mem) (k : Nat) :
    ∀ (a : Nat) (x y : Int) (acc : (Int → Nat) × Nat),
      acc.2 ≤ 1 → (drawRows m k a x y acc).2 ≤ 1 := by
  induction k with
  | zero =>
    intro a x y acc h
    simpa [drawRows] using h
  | succ k ih =>
    intro a x y acc h
    simp only [drawRows]
    exact ih _ _ _ _ (drawCols_flag_le 8 _ _ _ _ h)

/-- Registers copied from memory by 0xFx65 are bytes, provided every read is in
range (`base + k ≤ 4096`); an out-of-range read would store the `undefined`
sentinel instead (see `loadRegs_out_of_range`). -/
theorem loadRegs_le (m : Mem) (base : Nat) (v : Nat → Nat) (k : Nat)
    (hv : ∀ j, j < 16 → v j ≤ 255) (hbase : base + k ≤ 4096) :
    ∀ j, j < 16 → loadRegs m base v k j ≤ 255 := by
  induction k with
  | zero => exact hv
  | succ k ih =>
    intro j hj
    simp only [loadRegs]
    by_cases h : j = k
    · subst h
      rw [upd_same]
      have hin : base + j < 4096 := by omega
      simp only [memReadBare, hin, if_true]
      have := m.property (base + j)
      omega
    · rw [upd_diff _ _ _ _ h]
      exact ih (by omega) j hj

/-- The side condition of `loadRegs_le` is necessary: with `I = 0xFFF`, the
two-register load of opcode 0xF165 reads `memory[0x1000]`, out of range, and
stores the `undefined` sentinel — a value outside [0,255] — into `V[1]`. -/
theorem loadRegs_out_of_range :
    loadRegs zeroMem 0xFFF (fun _ => 0) 2 1 = 256 := by decide

set_option maxHeartbeats 1000000 in
/-- Register-range preservation for the 0x8xy* family. -/
theorem execALU_le (s : Chip8) (op : Nat) (hv : ∀ j, j < 16 → s.v j ≤ 255) :
    ∀ j, j < 16 → (execALU s op).v j ≤ 255 := by
  intro j hj
  have hx16 : (op &&& 0xF00) >>> 8 < 16 := by rw [and_F00_shr]; omega
  have hy16 : (op &&& 0xF0) >>> 4 < 16 := by rw [and_F0_shr]; omega
  have hvx : s.v ((op &&& 0xF00) >>> 8) ≤ 255 := hv _ hx16
  have hvy : s.v ((op &&& 0xF0) >>> 4) ≤ 255 := hv _ hy16
  have hvj : s.v j ≤ 255 := hv j hj
  have hor : s.v ((op &&& 0xF00) >>> 8) ||| s.v ((op &&& 0xF0) >>> 4) < 256 := by
    have h := Nat.or_lt_two_pow (show s.v ((op &&& 0xF00) >>> 8) < 2 ^ 8 by omega)
      (show s.v ((op &&& 0xF0) >>> 4) < 2 ^ 8 by omega)
    norm_num at h
    exact h
  have hxor : s.v ((op &&& 0xF00) >>> 8) ^^^ s.v ((op &&& 0xF0) >>> 4) < 256 := by
    have h := Nat.xor_lt_two_pow (show s.v ((op &&& 0xF00) >>> 8) < 2 ^ 8 by omega)
      (show s.v ((op &&& 0xF0) >>> 4) < 2 ^ 8 by omega)
    norm_num at h
    exact h
  have handy : s.v ((op &&& 0xF00) >>> 8) &&& s.v ((op &&& 0xF0) >>> 4) ≤
      s.v ((op &&& 0xF00) >>> 8) := Nat.and_le_left
  have hand1 : s.v ((op &&& 0xF00) >>> 8) &&& 1 ≤ 1 := Nat.and_le_right
  have hand80 : s.v ((op &&& 0xF00) >>> 8) &&& 0x80 ≤ 0x80 := Nat.and_le_right
  have hs1 : ∀ n : Nat, n >>> 1 = n / 2 := fun n => Nat.shiftRight_eq_div_pow n 1
  have hs2 : ∀ n : Nat, n <<< 1 = n * 2 := fun n => Nat.shiftLeft_eq n 1
  obtain ⟨k, hk, hklt⟩ : ∃ k, op &&& 0xF = k ∧ k < 16 :=
    ⟨op &&& 0xF, rfl, by rw [and_F]; omega⟩
  interval_cases k
  all_goals (
    simp only [execALU, hk]
    norm_num
    first
      | exact hv j hj
      | (try dsimp only
         all_goals try split_ifs at *
         all_goals try simp only [upd, eq_self_iff_true, if_true, hs1, hs2] at *
         all_goals try split_ifs at *
         all_goals omega))

/-- Register-range preservation for the 0xDxyn draw case: the collision flag
written into `V[0xF]` is 0 or 1. -/
theorem execDraw_le (s : Chip8) (op : Nat) (hv : ∀ j, j < 16 → s.v j ≤ 255) :
    ∀ j, j < 16 → (execDraw s op).v j ≤ 255 := by
  intro j hj
  have h1 : ∀ j2, j2 < 16 → upd s.v 15 0 j2 ≤ 255 := upd_le _ _ _ hv (by norm_num)
  have hflag := drawRows_flag_le s.memory (op &&& 0xF) s.i
    ((upd s.v 15 0 ((op &&& 0xF00) >>> 8) : Nat) : Int)
    ((upd s.v 15 0 ((op &&& 0xF0) >>> 4) : Nat) : Int) (s.display, 0) (by norm_num)
  exact upd_le _ _ _ h1 (le_trans hflag (by norm_num)) j hj

/-- Register-range preservation for the 0xFx** family; needs `DT ≤ 255` for the
0xFx07 case and `I + 16 ≤ 4096` so that the loads of the 0xFx65 case read
memory in range (an out-of-range read stores the `undefined` sentinel). -/
theorem execMisc_le (s : Chip8) (op : Nat) (hv : ∀ j, j < 16 → s.v j ≤ 255)
    (hdt : s.dt ≤ 255) (hi : s.i + 16 ≤ 4096) :
    ∀ j, j < 16 → (execMisc s op).v j ≤ 255 := by
  intro j hj
  have hx16 : (op &&& 0xF00) >>> 8 < 16 := by rw [and_F00_shr]; omega
  simp only [execMisc]
  split_ifs
  all_goals first
    | exact hv j hj
    | exact upd_le _ _ _ hv hdt j hj
    | exact loadRegs_le s.memory s.i s.v _ hv (by omega) j hj

set_option maxHeartbeats 1000000 in
/-- C7 (amended): if all sixteen registers and the delay timer DT hold values in
[0,255] and the index register satisfies `I + 16 ≤ 4096`, then after any single
cycle every register is again in [0,255].  The DT hypothesis is required
because 0xFx07 copies DT into a register unmasked; the I hypothesis is required
because the bare assignments of 0xFx65 would store out-of-range memory reads
(`undefined` in the source) into registers. -/
theorem v_range_theorem (s : Chip8) (rnd : Nat)
    (hv : ∀ j, j < 16 → s.v j ≤ 255) (hdt : s.dt ≤ 255)
    (hi : s.i + 16 ≤ 4096) :
    ∀ t, runCycle s rnd = .ok t → ∀ j, j < 16 → t.v j ≤ 255 := by
  intro t ht j hj
  have hx16 : (fetchAt s.memory s.pc &&& 0xF00) >>> 8 < 16 := by
    rw [and_F00_shr]; omega
  have hvx : s.v ((fetchAt s.memory s.pc &&& 0xF00) >>> 8) ≤ 255 := hv _ hx16
  have hvj : s.v j ≤ 255 := hv j hj
  have hbyte : fetchAt s.memory s.pc &&& 0xFF ≤ 255 := Nat.and_le_right
  have hrnd : rnd &&& (fetchAt s.memory s.pc &&& 0xFF) ≤ 255 :=
    le_trans Nat.and_le_right hbyte
  obtain ⟨k, hk, hklt⟩ : ∃ k, fetchAt s.memory s.pc &&& 0xF000 = k * 4096 ∧ k < 16 :=
    ⟨fetchAt s.memory s.pc / 4096 % 16, by rw [and_F000], by omega⟩
  simp only [runCycle, exec, hk] at ht
  interval_cases k
  all_goals norm_num at ht
  all_goals try split_ifs at ht
  all_goals try (injection ht with hte; subst hte)
  all_goals try subst ht
  all_goals first
    | exact hv j hj
    | exact execALU_le { s with pc := s.pc + 2 } (fetchAt s.memory s.pc) hv j hj
    | exact execDraw_le { s with pc := s.pc + 2 } (fetchAt s.memory s.pc) hv j hj
    | exact execMisc_le { s with pc := s.pc + 2 } (fetchAt s.memory s.pc) hv hdt hi j hj
    | (try dsimp only
       all_goals try simp only [upd, eq_self_iff_true, if_true] at *
       all_goals try split_ifs at *
       all_goals omega)

/-- C7 counterexample: a state whose sixteen registers all hold byte values but
whose delay timer holds 300 executes 0xF007 (LD V0, DT) into `V[0] = 300 > 255`,
so the claim fails without a range hypothesis on DT. -/
theorem v_range_counterexample :
    (∀ j, j < 16 → c7State.v j ≤ 255) ∧
      (runCycle c7State 0).toOption.map (fun t => t.v 0) = some 300 ∧
      ¬ (300 : Nat) ≤ 255 := by
  exact ⟨by decide, by decide, by decide⟩

/-- C7 witness: the amended claim evaluated after `ADD V0, 0xFF` from a fresh
loaded state (all registers, DT and I in range). -/
theorem v_range_witness :
    ({ (Chip8.load initChip8 false [0x70, 0xFF]).1 with
        pc := 0x202
        v := upd (Chip8.load initChip8 false [0x70, 0xFF]).1.v 0 255 } : Chip8).v 5 ≤ 255 :=
  v_range_theorem (Chip8.load initChip8 false [0x70, 0xFF]).1 0 (by decide) (by decide)
    (by decide) _ (by rfl) 5 (by norm_num)

/-! ## Claim C5: sprite-draw characterization -/

theorem xor_one_xor_one (n : Nat) : n ^^^ 1 ^^^ 1 = n := by
  rw [Nat.xor_assoc, Nat.xor_self, Nat.xor_zero]

theorem xor_one_eq_zero_iff (n : Nat) : n ^^^ 1 = 0 ↔ n = 1 := by
  constructor
  · intro h
    have h2 := congrArg (fun z => z ^^^ 1) h
    simpa [Nat.xor_assoc] using h2
  · rintro rfl
    rfl

theorem xor_one_eq_one_iff (n : Nat) : n ^^^ 1 = 1 ↔ n = 0 := by
  constructor
  · intro h
    have h2 := congrArg (fun z => z ^^^ 1) h
    simpa [Nat.xor_assoc] using h2
  · rintro rfl
    rfl

/-- For in-range coordinates no wrap fires and `setPixel` toggles `x + y*64`. -/
theorem setPixel_eq (d : Int → Nat) (x y : Int)
    (hx0 : 0 ≤ x) (hx : x ≤ 64) (hy0 : 0 ≤ y) (hy : y ≤ 32) :
    setPixel d x y =
      (upd d (x + y * 64) (d (x + y * 64) ^^^ 1), d (x + y * 64) ^^^ 1 == 0) := by
  have hwx : wrapX x = x := by
    simp only [wrapX, displayWidth]
    split_ifs <;> omega
  have hwy : wrapY y = y := by
    simp only [wrapY, displayHeight]
    split_ifs <;> omega
  simp only [setPixel, pixelLoc, hwx, hwy, displayWidth]

/-- Reindexing of the bounded hit existential along one column-loop step. -/
theorem exists_succ_shift (k spr : Nat) (x y : Int) (P : Int → Prop) :
    (∃ j : Nat, j < k + 1 ∧ (spr <<< j) &&& 0x80 > 0 ∧ P (x + j + y * 64)) ↔
      ((spr &&& 0x80 > 0 ∧ P (x + y * 64)) ∨
        (∃ j : Nat, j < k ∧ ((spr <<< 1) <<< j) &&& 0x80 > 0 ∧ P ((x + 1) + j + y * 64))) := by
  constructor
  · rintro ⟨j, hj, hbit, hP⟩
    cases j with
    | zero =>
      left
      exact ⟨by simpa using hbit, by simpa using hP⟩
    | succ j2 =>
      right
      refine ⟨j2, by omega, ?_, ?_⟩
      · rw [← Nat.shiftLeft_add, show 1 + j2 = j2 + 1 by omega]
        exact hbit
      · have hco : x + 1 + (j2 : Int) + y * 64 = x + ((j2 + 1 : Nat) : Int) + y * 64 := by
          push_cast
          ring
        rw [hco]
        exact hP
  · rintro (⟨hbit, hP⟩ | ⟨j2, hj, hbit, hP⟩)
    · exact ⟨0, by omega, by simpa using hbit, by simpa using hP⟩
    · refine ⟨j2 + 1, by omega, ?_, ?_⟩
      · rw [show j2 + 1 = 1 + j2 by omega, Nat.shiftLeft_add]
        exact hbit
      · have hco : x + ((j2 + 1 : Nat) : Int) + y * 64 = x + 1 + (j2 : Int) + y * 64 := by
          push_cast
          ring
        rw [hco]
        exact hP

/-- Display characterization of the column loop: under in-range coordinates the
final display is the initial one with each location under a set sprite bit
toggled exactly once. -/
theorem drawCols_fst (k : Nat) :
    ∀ (spr : Nat) (x y : Int) (d : Int → Nat) (vf : Nat) (loc : Int),
      0 ≤ x → x + k ≤ 64 → 0 ≤ y → y ≤ 32 →
      (drawCols k spr x y (d, vf)).1 loc =
        if ∃ j : Nat, j < k ∧ (spr <<< j) &&& 0x80 > 0 ∧ loc = x + j + y * 64
        then d loc ^^^ 1 else d loc := by
  induction k with
  | zero =>
    intro spr x y d vf loc hx0 hxk hy0 hy
    simp [drawCols]
  | succ k ih =>
    intro spr x y d vf loc hx0 hxk hy0 hy
    simp only [drawCols]
    simp only [exists_succ_shift k spr x y (fun z => loc = z)]
    by_cases hbit : spr &&& 0x80 > 0
    · rw [if_pos hbit]
      try dsimp only
      rw [setPixel_eq d x y hx0 (by omega) hy0 hy]
      try dsimp only
      rw [ih (spr <<< 1) (x + 1) y _ _ loc (by omega) (by omega) hy0 hy]
      by_cases hloc : loc = x + y * 64
      · subst hloc
        have hfalse : ¬ ∃ j : Nat, j < k ∧ ((spr <<< 1) <<< j) &&& 0x80 > 0 ∧
            x + y * 64 = (x + 1) + j + y * 64 := by
          rintro ⟨j, hj, hb, heq⟩
          omega
        rw [if_neg hfalse, if_pos (Or.inl ⟨hbit, rfl⟩), upd_same]
      · rw [upd_diff _ _ _ _ hloc]
        by_cases hex : ∃ j : Nat, j < k ∧ ((spr <<< 1) <<< j) &&& 0x80 > 0 ∧
            loc = (x + 1) + j + y * 64
        · rw [if_pos hex, if_pos (Or.inr hex)]
        · have hnot : ¬ ((spr &&& 0x80 > 0 ∧ loc = x + y * 64) ∨
              ∃ j : Nat, j < k ∧ ((spr <<< 1) <<< j) &&& 0x80 > 0 ∧
                loc = (x + 1) + j + y * 64) := by
            rintro (⟨hb2, hl2⟩ | hex2)
            · exact hloc hl2
            · exact hex hex2
          rw [if_neg hex, if_neg hnot]
    · rw [if_neg hbit]
      rw [ih (spr <<< 1) (x + 1) y d vf loc (by omega) (by omega) hy0 hy]
      by_cases hex : ∃ j : Nat, j < k ∧ ((spr <<< 1) <<< j) &&& 0x80 > 0 ∧
          loc = (x + 1) + j + y * 64
      · rw [if_pos hex, if_pos (Or.inr hex)]
      · have hnot : ¬ ((spr &&& 0x80 > 0 ∧ loc = x + y * 64) ∨
            ∃ j : Nat, j < k ∧ ((spr <<< 1) <<< j) &&& 0x80 > 0 ∧
              loc = (x + 1) + j + y * 64) := by
          rintro (⟨hb2, hl2⟩ | hex2)
          · exact hbit hb2
          · exact hex hex2
        rw [if_neg hex, if_neg hnot]

/-- Collision-flag characterization of the column loop: the flag becomes 1
exactly when some set sprite bit lands on an initially lit pixel (locations in
one row are pairwise distinct, so each bit sees the initial display). -/
theorem drawCols_snd (k : Nat) :
    ∀ (spr : Nat) (x y : Int) (d : Int → Nat) (vf : Nat),
      0 ≤ x → x + k ≤ 64 → 0 ≤ y → y ≤ 32 →
      (drawCols k spr x y (d, vf)).2 =
        if ∃ j : Nat, j < k ∧ (spr <<< j) &&& 0x80 > 0 ∧ d (x + j + y * 64) = 1
        then 1 else vf := by
  induction k with
  | zero =>
    intro spr x y d vf hx0 hxk hy0 hy
    simp [drawCols]
  | succ k ih =>
    intro spr x y d vf hx0 hxk hy0 hy
    simp only [drawCols]
    simp only [exists_succ_shift k spr x y (fun z => d z = 1)]
    by_cases hbit : spr &&& 0x80 > 0
    · rw [if_pos hbit]
      try dsimp only
      rw [setPixel_eq d x y hx0 (by omega) hy0 hy]
      try dsimp only
      rw [ih (spr <<< 1) (x + 1) y _ _ (by omega) (by omega) hy0 hy]
      have hdpt : ∀ j : Nat, upd d (x + y * 64) (d (x + y * 64) ^^^ 1) ((x + 1) + j + y * 64)
          = d ((x + 1) + j + y * 64) := by
        intro j
        apply upd_diff
        omega
      simp only [hdpt, beq_iff_eq, xor_one_eq_zero_iff]
      by_cases hd : d (x + y * 64) = 1
      · rw [if_pos hd, if_pos (Or.inl ⟨hbit, hd⟩)]
        simp
      · rw [if_neg hd]
        by_cases hex : ∃ j : Nat, j < k ∧ ((spr <<< 1) <<< j) &&& 0x80 > 0 ∧
            d ((x + 1) + j + y * 64) = 1
        · rw [if_pos hex, if_pos (Or.inr hex)]
        · have hnot : ¬ ((spr &&& 0x80 > 0 ∧ d (x + y * 64) = 1) ∨
              ∃ j : Nat, j < k ∧ ((spr <<< 1) <<< j) &&& 0x80 > 0 ∧
                d ((x + 1) + j + y * 64) = 1) := by
            rintro (⟨hb2, hd2⟩ | hex2)
            · exact hd hd2
            · exact hex hex2
          rw [if_neg hex, if_neg hnot]
    · rw [if_neg hbit]
      rw [ih (spr <<< 1) (x + 1) y d vf (by omega) (by omega) hy0 hy]
      by_cases hex : ∃ j : Nat, j < k ∧ ((spr <<< 1) <<< j) &&& 0x80 > 0 ∧
          d ((x + 1) + j + y * 64) = 1
      · rw [if_pos hex, if_pos (Or.inr hex)]
      · have hnot : ¬ ((spr &&& 0x80 > 0 ∧ d (x + y * 64) = 1) ∨
            ∃ j : Nat, j < k ∧ ((spr <<< 1) <<< j) &&& 0x80 > 0 ∧
              d ((x + 1) + j + y * 64) = 1) := by
          rintro (⟨hb2, hd2⟩ | hex2)
          · exact hbit hb2
          · exact hex hex2
        rw [if_neg hex, if_neg hnot]

/-- Reindexing of `rowsHitP` along one row-loop step. -/
theorem rowsHitP_succ (m : Mem) (k a : Nat) (x y : Int) (P : Int → Prop) :
    rowsHitP m (k + 1) a x y P ↔
      ((∃ j : Nat, j < 8 ∧ (memRead m a <<< j) &&& 0x80 > 0 ∧ P (x + j + y * 64)) ∨
        rowsHitP m k (a + 1) x (y + 1) P) := by
  unfold rowsHitP
  constructor
  · rintro ⟨cy, hcy, j, hj, hbit, hP⟩
    cases cy with
    | zero =>
      left
      exact ⟨j, hj, by simpa using hbit, by simpa using hP⟩
    | succ cy2 =>
      right
      refine ⟨cy2, by omega, j, hj, ?_, ?_⟩
      · rw [show a + 1 + cy2 = a + (cy2 + 1) by omega]
        exact hbit
      · have hco : x + (j : Int) + (y + 1 + (cy2 : Int)) * 64 =
            x + (j : Int) + (y + ((cy2 + 1 : Nat) : Int)) * 64 := by
          push_cast
          ring
        rw [hco]
        exact hP
  · rintro (⟨j, hj, hbit, hP⟩ | ⟨cy2, hcy, j, hj, hbit, hP⟩)
    · exact ⟨0, by omega, j, hj, by simpa using hbit, by simpa using hP⟩
    · refine ⟨cy2 + 1, by omega, j, hj, ?_, ?_⟩
      · rw [show a + (cy2 + 1) = a + 1 + cy2 by omega]
        exact hbit
      · have hco : x + (j : Int) + (y + ((cy2 + 1 : Nat) : Int)) * 64 =
            x + (j : Int) + (y + 1 + (cy2 : Int)) * 64 := by
          push_cast
          ring
        rw [hco]
        exact hP

/-- Display characterization of the full row loop: distinct rows toggle disjoint
location sets, so each touched location is toggled exactly once. -/
theorem drawRows_fst (m : Mem) (k : Nat) :
    ∀ (a : Nat) (x y : Int) (d : Int → Nat) (vf : Nat) (loc : Int),
      0 ≤ x → x + 8 ≤ 64 → 0 ≤ y → y + k ≤ 32 →
      (drawRows m k a x y (d, vf)).1 loc =
        if rowsHitP m k a x y (fun z => loc = z) then d loc ^^^ 1 else d loc := by
  induction k with
  | zero =>
    intro a x y d vf loc hx0 hx8 hy0 hyk
    simp [drawRows, rowsHitP]
  | succ k ih =>
    intro a x y d vf loc hx0 hx8 hy0 hyk
    simp only [drawRows]
    rw [show drawCols 8 (memRead m a) x y (d, vf) =
      ((drawCols 8 (memRead m a) x y (d, vf)).1, (drawCols 8 (memRead m a) x y (d, vf)).2)
      from rfl]
    rw [ih (a + 1) x (y + 1) _ _ loc hx0 hx8 (by omega) (by omega)]
    rw [drawCols_fst 8 (memRead m a) x y d vf loc hx0 (by omega) hy0 (by omega)]
    simp only [rowsHitP_succ m k a x y (fun z => loc = z)]
    have hdisj : ¬ ((∃ j : Nat, j < 8 ∧ (memRead m a <<< j) &&& 0x80 > 0 ∧
        loc = x + j + y * 64) ∧
        rowsHitP m k (a + 1) x (y + 1) (fun z => loc = z)) := by
      rintro ⟨⟨j, hj, _, hl1⟩, hHIT⟩
      unfold rowsHitP at hHIT
      obtain ⟨cy, hcy, j2, hj2, _, hl2⟩ := hHIT
      omega
    by_cases hEX0 : ∃ j : Nat, j < 8 ∧ (memRead m a <<< j) &&& 0x80 > 0 ∧
        loc = x + j + y * 64
    · have hHITn : ¬ rowsHitP m k (a + 1) x (y + 1) (fun z => loc = z) :=
        fun h => hdisj ⟨hEX0, h⟩
      rw [if_neg hHITn, if_pos hEX0, if_pos (Or.inl hEX0)]
    · by_cases hHIT : rowsHitP m k (a + 1) x (y + 1) (fun z => loc = z)
      · rw [if_pos hHIT, if_neg hEX0, if_pos (Or.inr hHIT)]
      · have hnot : ¬ ((∃ j : Nat, j < 8 ∧ (memRead m a <<< j) &&& 0x80 > 0 ∧
            loc = x + j + y * 64) ∨
            rowsHitP m k (a + 1) x (y + 1) (fun z => loc = z)) := by
          rintro (h | h)
          · exact hEX0 h
          · exact hHIT h
        rw [if_neg hHIT, if_neg hEX0, if_neg hnot]

/-- Collision-flag characterization of the full row loop. -/
theorem drawRows_snd (m : Mem) (k : Nat) :
    ∀ (a : Nat) (x y : Int) (d : Int → Nat) (vf : Nat),
      0 ≤ x → x + 8 ≤ 64 → 0 ≤ y → y + k ≤ 32 →
      (drawRows m k a x y (d, vf)).2 =
        if rowsHitP m k a x y (fun z => d z = 1) then 1 else vf := by
  induction k with
  | zero =>
    intro a x y d vf hx0 hx8 hy0 hyk
    simp [drawRows, rowsHitP]
  | succ k ih =>
    intro a x y d vf hx0 hx8 hy0 hyk
    simp only [drawRows]
    rw [show drawCols 8 (memRead m a) x y (d, vf) =
      ((drawCols 8 (memRead m a) x y (d, vf)).1, (drawCols 8 (memRead m a) x y (d, vf)).2)
      from rfl]
    rw [ih (a + 1) x (y + 1) _ _ hx0 hx8 (by omega) (by omega)]
    rw [drawCols_snd 8 (memRead m a) x y d vf hx0 (by omega) hy0 (by omega)]
    have hd1 : ∀ (cy j : Nat), cy < k → j < 8 →
        (drawCols 8 (memRead m a) x y (d, vf)).1 (x + j + ((y + 1) + cy) * 64) =
          d (x + j + ((y + 1) + cy) * 64) := by
      intro cy j hcy hj
      rw [drawCols_fst 8 (memRead m a) x y d vf (x + j + ((y + 1) + cy) * 64)
        hx0 (by omega) hy0 (by omega)]
      have hnot : ¬ ∃ j2 : Nat, j2 < 8 ∧ (memRead m a <<< j2) &&& 0x80 > 0 ∧
          x + j + ((y + 1) + cy) * 64 = x + j2 + y * 64 := by
        rintro ⟨j2, hj2, _, he⟩
        omega
      rw [if_neg hnot]
    have hcong : rowsHitP m k (a + 1) x (y + 1)
        (fun z => (drawCols 8 (memRead m a) x y (d, vf)).1 z = 1) ↔
        rowsHitP m k (a + 1) x (y + 1) (fun z => d z = 1) := by
      unfold rowsHitP
      constructor
      · rintro ⟨cy, hcy, j, hj, hbit, hp⟩
        exact ⟨cy, hcy, j, hj, hbit, by rwa [hd1 cy j hcy hj] at hp⟩
      · rintro ⟨cy, hcy, j, hj, hbit, hp⟩
        refine ⟨cy, hcy, j, hj, hbit, ?_⟩
        dsimp only
        rwa [hd1 cy j hcy hj]
    simp only [hcong]
    simp only [rowsHitP_succ m k a x y (fun z => d z = 1)]
    by_cases h1 : rowsHitP m k (a + 1) x (y + 1) (fun z => d z = 1)
    · rw [if_pos h1, if_pos (Or.inr h1)]
    · rw [if_neg h1]
      by_cases h0 : ∃ j : Nat, j < 8 ∧ (memRead m a <<< j) &&& 0x80 > 0 ∧
          d (x + j + y * 64) = 1
      · rw [if_pos h0, if_pos (Or.inl h0)]
      · have hnot : ¬ ((∃ j : Nat, j < 8 ∧ (memRead m a <<< j) &&& 0x80 > 0 ∧
            d (x + j + y * 64) = 1) ∨
            rowsHitP m k (a + 1) x (y + 1) (fun z => d z = 1)) := by
          rintro (h | h)
          · exact h0 h
          · exact h1 h
        rw [if_neg h0, if_neg hnot]

/-- Effect of one cycle whose fetched opcode is DRW (0xDxyn). -/
theorem exec_drw (s : Chip8) (rnd xr yr nn : Nat)
    (hxr : xr < 16) (hyr : yr < 16) (hnn : nn < 16)
    (hop : fetchAt s.memory s.pc = 0xD000 + xr * 256 + yr * 16 + nn) :
    runCycle s rnd = .ok { s with
      pc := s.pc + 2
      v := upd (upd s.v 0xF 0) 0xF
        (drawRows s.memory nn s.i ((upd s.v 0xF 0 xr : Nat) : Int)
          ((upd s.v 0xF 0 yr : Nat) : Int) (s.display, 0)).2
      display := (drawRows s.memory nn s.i ((upd s.v 0xF 0 xr : Nat) : Int)
          ((upd s.v 0xF 0 yr : Nat) : Int) (s.display, 0)).1
      requestRender := if nn = 0 then s.requestRender else true } := by
  have htop : (0xD000 + xr * 256 + yr * 16 + nn) &&& 0xF000 = 0xD000 := by
    rw [and_F000]
    omega
  have hxf : ((0xD000 + xr * 256 + yr * 16 + nn) &&& 0xF00) >>> 8 = xr := by
    rw [and_F00_shr]
    omega
  have hyf : ((0xD000 + xr * 256 + yr * 16 + nn) &&& 0xF0) >>> 4 = yr := by
    rw [and_F0_shr]
    omega
  have hnf : (0xD000 + xr * 256 + yr * 16 + nn) &&& 0xF = nn := by
    rw [and_F]
    omega
  unfold runCycle
  rw [hop]
  simp only [exec, execDraw, htop, hxf, hyf, hnf]
  norm_num

/-- One DRW cycle, described through the loop characterizations: memory, PC
advance, I, and the two coordinate registers (for x, y other than 0xF) are
as expected, each in-range touched pixel is toggled once, and the collision
flag reports a toggled-off pixel. -/
theorem drw_cycle (s : Chip8) (rnd xr yr nn : Nat)
    (hxr : xr < 16) (hyr : yr < 16) (hnn : nn < 16)
    (hxr15 : xr ≠ 15) (hyr15 : yr ≠ 15)
    (hop : fetchAt s.memory s.pc = 0xD000 + xr * 256 + yr * 16 + nn)
    (hvx : s.v xr + 8 ≤ 64) (hvy : s.v yr + nn ≤ 32) :
    ∃ t, runCycle s rnd = .ok t ∧
      t.memory = s.memory ∧ t.pc = s.pc + 2 ∧ t.i = s.i ∧
      t.v xr = s.v xr ∧ t.v yr = s.v yr ∧
      (∀ loc : Int, t.display loc =
        if rowsHitP s.memory nn s.i ((s.v xr : Int)) ((s.v yr : Int)) (fun z => loc = z)
        then s.display loc ^^^ 1 else s.display loc) ∧
      t.v 0xF = (if rowsHitP s.memory nn s.i ((s.v xr : Int)) ((s.v yr : Int))
          (fun z => s.display z = 1) then 1 else 0) := by
  have h1 := exec_drw s rnd xr yr nn hxr hyr hnn hop
  rw [upd_diff s.v 15 0 xr hxr15, upd_diff s.v 15 0 yr hyr15] at h1
  refine ⟨_, h1, rfl, rfl, rfl, ?_, ?_, ?_, ?_⟩
  · dsimp only
    rw [upd_diff _ _ _ _ hxr15, upd_diff _ _ _ _ hxr15]
  · dsimp only
    rw [upd_diff _ _ _ _ hyr15, upd_diff _ _ _ _ hyr15]
  · intro loc
    dsimp only
    rw [drawRows_fst s.memory nn s.i ((s.v xr : Int)) ((s.v yr : Int)) s.display 0 loc
      (by omega) (by omega) (by omega) (by omega)]
  · dsimp only
    rw [upd_same]
    rw [drawRows_snd s.memory nn s.i ((s.v xr : Int)) ((s.v yr : Int)) s.display 0
      (by omega) (by omega) (by omega) (by omega)]

/-- C5 (amended): executing the same in-range DRW twice (same registers, I and
memory; x, y not 0xF) always restores every display pixel to its value before
the first draw, and the second draw reports a collision (`V[0xF] = 1`) exactly
when some drawn sprite bit covers a pixel that was clear before the first draw;
if every covered pixel was already lit, the second draw leaves `V[0xF] = 0`. -/
theorem drw_twice_theorem (s : Chip8) (r1 r2 xr yr nn : Nat)
    (hxr : xr < 16) (hyr : yr < 16) (hnn : nn < 16)
    (hxr15 : xr ≠ 15) (hyr15 : yr ≠ 15)
    (hop1 : fetchAt s.memory s.pc = 0xD000 + xr * 256 + yr * 16 + nn)
    (hop2 : fetchAt s.memory (s.pc + 2) = 0xD000 + xr * 256 + yr * 16 + nn)
    (hvx : s.v xr + 8 ≤ 64) (hvy : s.v yr + nn ≤ 32) :
    ∃ t u, runCycle s r1 = .ok t ∧ runCycle t r2 = .ok u ∧
      (∀ loc : Int, u.display loc = s.display loc) ∧
      (u.v 0xF = 1 ↔ rowsHitP s.memory nn s.i ((s.v xr : Int)) ((s.v yr : Int))
        (fun z => s.display z = 0)) := by
  obtain ⟨t, h1, htm, htpc, hti, htvx, htvy, htdisp, htflag⟩ :=
    drw_cycle s r1 xr yr nn hxr hyr hnn hxr15 hyr15 hop1 hvx hvy
  have hop2t : fetchAt t.memory t.pc = 0xD000 + xr * 256 + yr * 16 + nn := by
    rw [htm, htpc]
    exact hop2
  have hvxt : t.v xr + 8 ≤ 64 := by
    rw [htvx]
    exact hvx
  have hvyt : t.v yr + nn ≤ 32 := by
    rw [htvy]
    exact hvy
  obtain ⟨u, h2, hum, hupc, hui, huvx, huvy, hudisp, huflag⟩ :=
    drw_cycle t r2 xr yr nn hxr hyr hnn hxr15 hyr15 hop2t hvxt hvyt
  have hpt : ∀ (cy j : Nat), cy < nn → j < 8 →
      ((memRead s.memory (s.i + cy) <<< j) &&& 0x80 > 0) →
      (t.display ((s.v xr : Int) + j + ((s.v yr : Int) + cy) * 64) = 1 ↔
        s.display ((s.v xr : Int) + j + ((s.v yr : Int) + cy) * 64) = 0) := by
    intro cy j hcy hj hbit
    rw [htdisp]
    have hhit : rowsHitP s.memory nn s.i ((s.v xr : Int)) ((s.v yr : Int))
        (fun z => ((s.v xr : Int) + j + ((s.v yr : Int) + cy) * 64) = z) :=
      ⟨cy, hcy, j, hj, hbit, rfl⟩
    rw [if_pos hhit]
    exact xor_one_eq_one_iff _
  refine ⟨t, u, h1, h2, ?_, ?_⟩
  · intro loc
    rw [hudisp loc, htm, hti, htvx, htvy, htdisp loc]
    by_cases hc : rowsHitP s.memory nn s.i ((s.v xr : Int)) ((s.v yr : Int))
        (fun z => loc = z)
    · rw [if_pos hc, if_pos hc, xor_one_xor_one]
    · rw [if_neg hc, if_neg hc]
  · rw [huflag, htm, hti, htvx, htvy]
    constructor
    · intro h1eq
      by_cases hc : rowsHitP s.memory nn s.i ((s.v xr : Int)) ((s.v yr : Int))
          (fun z => t.display z = 1)
      · obtain ⟨cy, hcy, j, hj, hbit, hp⟩ := hc
        exact ⟨cy, hcy, j, hj, hbit, (hpt cy j hcy hj hbit).1 hp⟩
      · rw [if_neg hc] at h1eq
        exact absurd h1eq (by norm_num)
    · rintro ⟨cy, hcy, j, hj, hbit, hp⟩
      have hcond : rowsHitP s.memory nn s.i ((s.v xr : Int)) ((s.v yr : Int))
          (fun z => t.display z = 1) :=
        ⟨cy, hcy, j, hj, hbit, (hpt cy j hcy hj hbit).2 hp⟩
      rw [if_pos hcond]

/-- C5 counterexample: drawing sprite byte 0x80 at (0,0) twice over a display
whose single covered pixel is already lit leaves `V[0xF] = 0` after the second
draw (the erase is reported by the first draw instead), refuting the claim that
the second of two identical draws always sets `V[0xF] = 1`.  The sprite is
nonzero and fully in range, and the pixel is nevertheless restored to 1. -/
theorem drw_twice_counterexample :
    memRead c5State.memory 0x300 = 0x80 ∧
      c5State.v 0 = 0 ∧ c5State.v 1 = 0 ∧ c5State.i = 0x300 ∧
      ((runCycle c5State 0).bind (fun t => runCycle t 0)).toOption.map
        (fun u => (u.v 0xF, u.display 0)) = some (0, 1) ∧
      (0 : Nat) ≠ 1 := by
  refine ⟨by decide, by decide, by decide, by decide, by decide, by decide⟩

/-- C5 witness: the amended claim at the concrete double-draw state with a dark
display. -/
theorem drw_twice_witness :
    ∃ t u, runCycle c5StateW 0 = .ok t ∧ runCycle t 0 = .ok u ∧
      (∀ loc : Int, u.display loc = c5StateW.display loc) ∧
      (u.v 0xF = 1 ↔ rowsHitP c5StateW.memory 1 c5StateW.i ((c5StateW.v 0 : Int))
        ((c5StateW.v 1 : Int)) (fun z => c5StateW.display z = 0)) :=
  drw_twice_theorem c5StateW 0 0 0 1 1 (by decide) (by decide) (by decide)
    (by decide) (by decide) (by decide) (by decide) (by decide) (by decide)
